import Mathlib

/-
Verification of the tunnel-gateway backend (src/backend/main.go) against its
specification.  The registry (`server`), its operations, the endpoint namer
(`endpointURLs`) and the identity verifier (`keyMatchesAccount`) are embedded
shallowly below.

Modelling conventions:
  * Go pointers (`*target`, `*tunnelRef`, `*ssh.ServerConn`, `ssh.Channel`)
    are modelled as `Nat` identities.  Objects created with `&target{...}` /
    `&tunnelRef{...}` receive a fresh identity from an allocation counter
    `nextId`; two objects with equal fields but different allocations are
    distinct, exactly as Go map keys of pointer type are.  The heaps
    `targetHeap` / `refHeap` map an identity to the object's fields.
  * Go maps are `κ → Option β` functions (`none` = key absent / nil map);
    Go map-sets (`map[T]void`) are `List Nat` of identities with
    insert-if-absent (`setInsert`) and delete = `filter`, which agrees with
    map semantics on membership.
  * A Go nil-pointer dereference (panic) is modelled by returning `none`
    from an `Option server` operation.
  * Each operation takes the server state explicitly and returns the new
    state; the mutex is not modelled (operations are atomic steps).
-/

/-- Update one key of a map modelled as a function into `Option`. -/
def upd {κ : Type} [DecidableEq κ] {β : Type} (f : κ → Option β) (k : κ) (v : Option β) : κ → Option β :=
  fun x => if x = k then v else f x

/-- Insert into a Go map-set: adding a key that is already present changes nothing. -/
def setInsert (a : Nat) (l : List Nat) : List Nat := if a ∈ l then l else a :: l

/-! ### SHA-256 (crypto/sha256) over byte lists, words as `Nat` mod 2^32 -/

/-- Truncate to a 32-bit word. -/
def w32 (n : Nat) : Nat := n % 4294967296

/-- Rotate a 32-bit word right by `k`. -/
def rotr (k n : Nat) : Nat := w32 ((n >>> k) ||| (n <<< (32 - k)))

def bsig0 (x : Nat) : Nat := (rotr 2 x) ^^^ (rotr 13 x) ^^^ (rotr 22 x)

def bsig1 (x : Nat) : Nat := (rotr 6 x) ^^^ (rotr 11 x) ^^^ (rotr 25 x)

def ssig0 (x : Nat) : Nat := (rotr 7 x) ^^^ (rotr 18 x) ^^^ (x >>> 3)

def ssig1 (x : Nat) : Nat := (rotr 17 x) ^^^ (rotr 19 x) ^^^ (x >>> 10)

def chf (x y z : Nat) : Nat := (x &&& y) ^^^ ((x ^^^ 4294967295) &&& z)

def majf (x y z : Nat) : Nat := (x &&& y) ^^^ (x &&& z) ^^^ (y &&& z)

/-- Round constants of FIPS 180-4. -/
def K256 : List Nat :=
  [ 1116352408, 1899447441, 3049323471, 3921009573,
    961987163, 1508970993, 2453635748, 2870763221,
    3624381080, 310598401, 607225278, 1426881987,
    1925078388, 2162078206, 2614888103, 3248222580,
    3835390401, 4022224774, 264347078, 604807628,
    770255983, 1249150122, 1555081692, 1996064986,
    2554220882, 2821834349, 2952996808, 3210313671,
    3336571891, 3584528711, 113926993, 338241895,
    666307205, 773529912, 1294757372, 1396182291,
    1695183700, 1986661051, 2177026350, 2456956037,
    2730485921, 2820302411, 3259730800, 3345764771,
    3516065817, 3600352804, 4094571909, 275423344,
    430227734, 506948616, 659060556, 883997877,
    958139571, 1322822218, 1537002063, 1747873779,
    1955562222, 2024104815, 2227730452, 2361852424,
    2428436474, 2756734187, 3204031479, 3329325298 ]

/-- Working variables a..h of the compression function. -/
structure hashState where
  a : Nat
  b : Nat
  c : Nat
  d : Nat
  e : Nat
  f : Nat
  g : Nat
  h : Nat
deriving DecidableEq

/-- Initial hash value of FIPS 180-4. -/
def initH : hashState :=
  ⟨ 1779033703,
    3144134277,
    1013904242,
    2773480762,
    1359893119,
    2600822924,
    528734635,
    1541459225 ⟩

/-- One round of the SHA-256 compression function. -/
def roundStep (st : hashState) (kw : Nat × Nat) : hashState :=
  let t1 := w32 (st.h + bsig1 st.e + chf st.e st.f st.g + kw.1 + kw.2)
  let t2 := w32 (bsig0 st.a + majf st.a st.b st.c)
  { a := w32 (t1 + t2), b := st.a, c := st.b, d := st.c,
    e := w32 (st.d + t1), f := st.e, g := st.f, h := st.g }

/-- Extend the 16-word message block by `fuel` schedule words. -/
def extendW (w : List Nat) : Nat → List Nat
  | 0 => w
  | n + 1 =>
    let k := w.length
    extendW (w ++ [ w32 (ssig1 (w.getD (k - 2) 0) + w.getD (k - 7) 0 + ssig0 (w.getD (k - 15) 0) + w.getD (k - 16) 0) ]) n

/-- Message schedule W0..W63 of one 64-byte block (bytes big-endian). -/
def scheduleWords (block : List Nat) : List Nat :=
  extendW ((List.range 16).map (fun i =>
    ((block.getD (4 * i) 0) <<< 24) + ((block.getD (4 * i + 1) 0) <<< 16) +
    ((block.getD (4 * i + 2) 0) <<< 8) + block.getD (4 * i + 3) 0)) 48

/-- Compress one 64-byte block into the running state. -/
def compressBlock (st : hashState) (block : List Nat) : hashState :=
  let fin := ((K256.zip (scheduleWords block)).foldl roundStep st)
  { a := w32 (st.a + fin.a), b := w32 (st.b + fin.b), c := w32 (st.c + fin.c), d := w32 (st.d + fin.d),
    e := w32 (st.e + fin.e), f := w32 (st.f + fin.f), g := w32 (st.g + fin.g), h := w32 (st.h + fin.h) }

/-- Append 0x80, zeros to 56 mod 64, and the 64-bit big-endian bit length. -/
def padMessage (msg : List Nat) : List Nat :=
  let L := msg.length
  msg ++ [ 128 ] ++ List.replicate ((119 - (L % 64)) % 64) 0 ++
    (List.range 8).map (fun i => ((8 * L) >>> (8 * (7 - i))) % 256)

/-- Split a byte list into 64-byte blocks: bytes accumulate into `cur` and a
full block is emitted.  Structural recursion so that evaluation reduces. -/
def chunk64aux (cur : List Nat) : List Nat → List (List Nat)
  | [] => if cur.isEmpty then [] else [ cur ]
  | b :: rest =>
    if (cur ++ [ b ]).length = 64 then (cur ++ [ b ]) :: chunk64aux [] rest
    else chunk64aux (cur ++ [ b ]) rest

/-- Split a byte list into 64-byte blocks. -/
def chunk64 (l : List Nat) : List (List Nat) := chunk64aux [] l

/-- Big-endian bytes of a 32-bit word. -/
def wordBytes (w : Nat) : List Nat :=
  [ (w >>> 24) % 256, (w >>> 16) % 256, (w >>> 8) % 256, w % 256 ]

/-- SHA-256 digest (32 bytes) of a byte list. -/
def sha256 (msg : List Nat) : List Nat :=
  let st := (chunk64 (padMessage msg)).foldl compressBlock initH
  wordBytes st.a ++ wordBytes st.b ++ wordBytes st.c ++ wordBytes st.d ++
    wordBytes st.e ++ wordBytes st.f ++ wordBytes st.g ++ wordBytes st.h

/-! ### Base32 (encoding/base32 with the custom alphabet, no padding) -/

/-- Alphabet the source hands to base32.NewEncoding (main.go line 29). -/
def b32alphabet : List Char := "abcdefghijklmnopqrstuvwxyz234567".toList

/-- RFC 4648 base32 without padding: the input bytes as one big-endian bit
string, left-justified into ceil(8n/5) five-bit groups, each group indexing
the alphabet. -/
def b32encode (bytes : List Nat) : String :=
  let n := bytes.length
  let numChars := (8 * n + 4) / 5
  let acc := bytes.foldl (fun a b => a * 256 + b % 256) 0
  let sh := acc <<< (5 * numChars - 8 * n)
  ⟨ (List.range numChars).map (fun i => b32alphabet.getD ((sh >>> (5 * (numChars - 1 - i))) % 32) 'a') ⟩

/-! ### Endpoint namer (main.go lines 628-646) -/

/-- Bytes of strconv.Itoa of a port number. -/
def decimalBytes (n : Nat) : List Nat := (toString n).toList.map Char.toNat

/-- Embedding of endpointURLs.  The Go function reads the -domain flag; here
the base domain `dom` is passed explicitly.  `key` is the serialized public
key (key.Marshal()); the three hasher.Write calls concatenate. -/
def endpointURLs (dom user : String) (key : List Nat) (port : Nat) (githubEnabled gitlabEnabled : Bool) : List String :=
  let digest := sha256 (key ++ [ 0 ] ++ decimalBytes port)
  let b32 := b32encode (digest.take 16)
  let result := [ b32 ++ "." ++ dom ]
  let result :=
    if githubEnabled then
      (if port = 1 then result ++ [ user ++ ".gh." ++ dom ]
       else result ++ [ user ++ "--" ++ toString port ++ ".gh." ++ dom ])
    else result
  if gitlabEnabled then result ++ [ user ++ "-" ++ toString port ++ ".gl." ++ dom ] else result

/-- Spec-side primary hostname, written from the spec's words: SHA-256 of
`serialized_pubkey || 0x00 || decimal_ascii_of_port`, first 16 bytes, base32
(alphabet above, no padding), then a dot and the base domain. -/
def primaryHostnameSpec (dom : String) (key : List Nat) (port : Nat) : String :=
  b32encode ((sha256 (key ++ [ 0 ] ++ decimalBytes port)).take 16) ++ "." ++ dom

/-- Spec-side vanity names.  Site A (label gh): port 1 gives `user.gh.dom`,
any other port gives `user--port.gh.dom`.  Site B (label gl): always
`user-port.gl.dom`.  Nothing when the flag is off. -/
def vanitySpec (dom user : String) (port : Nat) (gh gl : Bool) : List String :=
  (if gh then
    [ (if port = 1 then user ++ ".gh." ++ dom else user ++ "--" ++ toString port ++ ".gh." ++ dom) ]
   else [])
  ++ (if gl then [ user ++ "-" ++ toString port ++ ".gl." ++ dom ] else [])

/-! ### Identity verifier (main.go lines 590-619) -/

/-- Outcome of the external HTTPS fetch of `https://site/user.keys`, the
function's only interaction with the outside world. `reqError`:
http.NewRequestWithContext failed; `doError`: http.DefaultClient.Do failed
(its response is nil); `readError`: reading the body failed; `ok body`: the
body was fetched. -/
inductive FetchOutcome where
  | reqError : FetchOutcome
  | doError : FetchOutcome
  | readError : FetchOutcome
  | ok : String → FetchOutcome

/-- Split a character list at every occurrence of `sep`, exactly as Go's
strings.Split with a one-character separator: the empty input gives one empty
field, a trailing separator a trailing empty field. -/
def splitOnChar (sep : Char) : List Char → List (List Char)
  | [] => [ [] ]
  | c :: rest =>
    match splitOnChar sep rest with
    | [] => [ [] ]
    | g :: gs => if c = sep then [] :: g :: gs else (c :: g) :: gs

/-- Join fields back with single spaces (the remainder field of SplitN). -/
def joinSpace : List (List Char) → List Char
  | [] => []
  | [ g ] => g
  | g :: gs => g ++ ' ' :: joinSpace gs

/-- strings.SplitN(line, " ", 3): at most three fields, the third keeping its
inner separators. -/
def splitOnSpaceN3 (line : List Char) : List (List Char) :=
  let ps := splitOnChar ' ' line
  if ps.length ≤ 3 then ps else ps.take 2 ++ [ joinSpace (ps.drop 2) ]

/-- One loop iteration of keyMatchesAccount: skip a line with fewer than two
fields, otherwise compare the second field to the key id. -/
def keyLineMatches (key line : List Char) : Bool :=
  let parts := splitOnSpaceN3 line
  if parts.length < 2 then false else parts.getD 1 [] == key

/-- Embedding of keyMatchesAccount given the fetch outcome.  `none` models a
panic: on a Do error the Go code still dereferences the nil response
(`io.ReadAll(response.Body)` at line 604 runs before any check of Do's
error), a nil-pointer dereference. -/
def keyMatchesAccount (outcome : FetchOutcome) (key : String) : Option Bool :=
  match outcome with
  | FetchOutcome.reqError => some false
  | FetchOutcome.doError => none
  | FetchOutcome.readError => some false
  | FetchOutcome.ok body =>
    some ((splitOnChar '\n' body.toList).any (fun line => keyLineMatches key.toList line))

/-! ### Tunnel registry data model (main.go lines 58-92) -/

/-- Fields of the Go struct `target`; `Remote` is the identity of the owning
SSH server connection. -/
structure target where
  KeyID : String
  Remote : Nat
  Host : String
  Port : Nat
deriving DecidableEq

/-- Fields of the Go struct `tunnelRef`; `Target` is the identity of the
referenced target object. -/
structure tunnelRef where
  Endpoint : String
  Target : Nat
deriving DecidableEq

/-- Per-connection state (Go struct `sshConnection`).  Sessions and
TunnelRefs are sets of channel / tunnelRef identities. -/
structure sshConnection where
  KeyID : String
  Sessions : List Nat
  TunnelRefs : List Nat
  lastPort : Nat
deriving DecidableEq

/-- The registry (Go struct `server`) together with the allocation model:
`targetHeap` / `refHeap` give each allocated identity its fields, `nextId`
is the next fresh identity. -/
structure server where
  conns : Nat → Option sshConnection
  endpoints : String → Option (List Nat)
  targetHeap : Nat → Option target
  refHeap : Nat → Option tunnelRef
  nextId : Nat

/-- newServer(): both indices empty. -/
def initServer : server :=
  { conns := fun _ => none, endpoints := fun _ => none,
    targetHeap := fun _ => none, refHeap := fun _ => none, nextId := 0 }

/-- newConnection (main.go lines 165-172). -/
def newConnection (keyID : String) (ch : Nat) : sshConnection :=
  { KeyID := keyID, Sessions := [ ch ], TunnelRefs := [], lastPort := 0 }

/-- startSession (main.go lines 94-103). -/
def server.startSession (s : server) (keyID : String) (conn ch : Nat) : server :=
  match s.conns conn with
  | none => { s with conns := upd s.conns conn (some (newConnection keyID ch)) }
  | some c => { s with conns := upd s.conns conn (some { c with Sessions := setInsert ch c.Sessions }) }

/-- newPort (main.go lines 105-111); `none` when the connection has no record
(the Go code would dereference a nil *sshConnection). -/
def server.newPort (s : server) (conn : Nat) : Option (server × Nat) :=
  match s.conns conn with
  | none => none
  | some c =>
    let lp := (c.lastPort + 1) % 65536
    some ({ s with conns := upd s.conns conn (some { c with lastPort := lp }) }, lp)

/-- Allocate a fresh target object (`&target{...}` at a call site). -/
def server.allocTarget (s : server) (t : target) : server × Nat :=
  ({ s with targetHeap := upd s.targetHeap s.nextId (some t), nextId := s.nextId + 1 }, s.nextId)

/-- insertEndpointTarget (main.go lines 114-127).  Adds the target identity
to the endpoint's bucket (fresh singleton bucket when the key is absent),
then allocates a fresh tunnelRef `{Endpoint, Target}` and adds its identity
to the owning connection's TunnelRefs.  `none` models the nil dereference
when the target identity is dangling or the owning connection has no
record. -/
def server.insertEndpointTarget (s : server) (endpoint : String) (tid : Nat) : Option server :=
  match s.targetHeap tid with
  | none => none
  | some t =>
    match s.conns t.Remote with
    | none => none
    | some c =>
      let newBucket :=
        match s.endpoints endpoint with
        | some ts => setInsert tid ts
        | none => [ tid ]
      some { s with
        endpoints := upd s.endpoints endpoint (some newBucket),
        conns := upd s.conns t.Remote (some { c with TunnelRefs := setInsert s.nextId c.TunnelRefs }),
        refHeap := upd s.refHeap s.nextId (some { Endpoint := endpoint, Target := tid }),
        nextId := s.nextId + 1 }

/-- removeEndpointTarget (main.go lines 130-147).  Early return when the
bucket is absent.  Otherwise delete the given target identity from the
bucket, dropping the key when the bucket empties; then allocate a FRESH
tunnelRef (`&tunnelRef{...}` at line 143) and delete that fresh identity
from the owning connection's TunnelRefs — Go map deletion by pointer key,
so only the fresh identity (never the stored one) could be removed.  The
fresh identity is `s.nextId`, which the filter looks for. -/
def server.removeEndpointTarget (s : server) (endpoint : String) (tid : Nat) : Option server :=
  match s.targetHeap tid with
  | none => none
  | some t =>
    match s.endpoints endpoint with
    | none => some s
    | some ts =>
      let ts2 := ts.filter (fun x => x != tid)
      match s.conns t.Remote with
      | none => none
      | some c =>
        some { s with
          endpoints := upd s.endpoints endpoint (if ts2.isEmpty then none else some ts2),
          conns := upd s.conns t.Remote (some { c with TunnelRefs := c.TunnelRefs.filter (fun x => x != s.nextId) }),
          nextId := s.nextId + 1 }

/-- Observable effects of endSession on its channel. -/
structure sessionEnd where
  exitStatus : Nat
  channelClosed : Bool
  scheduledConnClose : Bool
deriving DecidableEq

/-- endSession (main.go lines 174-194).  The exit-status-0 request and the
channel close happen before the lock, unconditionally; a missing connection
record returns with the state untouched; otherwise the channel leaves the
session set and, when the set empties, a close of the SSH connection is
scheduled asynchronously. -/
def server.endSession (s : server) (conn ch : Nat) : server × sessionEnd :=
  match s.conns conn with
  | none => (s, { exitStatus := 0, channelClosed := true, scheduledConnClose := false })
  | some c =>
    let sess := c.Sessions.filter (fun x => x != ch)
    ({ s with conns := upd s.conns conn (some { c with Sessions := sess }) },
     { exitStatus := 0, channelClosed := true, scheduledConnClose := sess.isEmpty })

/-- Loop body of closeConnection: for each tunnelRef identity look up its
fields and call removeEndpointTarget.  The Go loop ranges over the live map;
its deletes never hit (see removeEndpointTarget), so iterating the initial
membership list is the same traversal. -/
def removeRefs (s : server) (rids : List Nat) : Option server :=
  match rids with
  | [] => some s
  | rid :: rest =>
    match s.refHeap rid with
    | none => none
    | some r =>
      match s.removeEndpointTarget r.Endpoint r.Target with
      | none => none
      | some s2 => removeRefs s2 rest

/-- closeConnection (main.go lines 196-212). -/
def server.closeConnection (s : server) (conn : Nat) : Option server :=
  match s.conns conn with
  | none => some s
  | some c =>
    match removeRefs s c.TunnelRefs with
    | none => none
    | some s1 => some { s1 with conns := upd s1.conns conn none }

/-! ### Main-loop request handlers (main.go lines 503-568) -/

/-- Registry effect of the tcpip-forward case: for each endpoint name a fresh
`&target{...}` is allocated and inserted (main.go lines 522-531). -/
def insertAll (s : server) (connId : Nat) (keyID bindAddr : String) (bindPort : Nat) (eps : List String) : Option server :=
  match eps with
  | [] => some s
  | e :: rest =>
    let p := s.allocTarget { KeyID := keyID, Remote := connId, Host := bindAddr, Port := bindPort }
    match p.1.insertEndpointTarget e p.2 with
    | none => none
    | some s2 => insertAll s2 connId keyID bindAddr bindPort rest

/-- Registry effect of the cancel-tcpip-forward case: for each endpoint name
a FRESH `&target{...}` is allocated and handed to removeEndpointTarget
(main.go lines 552-561). -/
def removeAll (s : server) (connId : Nat) (keyID bindAddr : String) (bindPort : Nat) (eps : List String) : Option server :=
  match eps with
  | [] => some s
  | e :: rest =>
    let p := s.allocTarget { KeyID := keyID, Remote := connId, Host := bindAddr, Port := bindPort }
    match p.1.removeEndpointTarget e p.2 with
    | none => none
    | some s2 => removeAll s2 connId keyID bindAddr bindPort rest

/-- tcpip-forward handling for one request. -/
def server.handleTcpipForward (s : server) (connId : Nat) (dom user : String) (key : List Nat) (keyID : String) (gh gl : Bool) (bindAddr : String) (bindPort : Nat) : Option server :=
  insertAll s connId keyID bindAddr bindPort (endpointURLs dom user key bindPort gh gl)

/-- cancel-tcpip-forward handling for one request. -/
def server.handleCancelTcpipForward (s : server) (connId : Nat) (dom user : String) (key : List Nat) (keyID : String) (gh gl : Bool) (bindAddr : String) (bindPort : Nat) : Option server :=
  removeAll s connId keyID bindAddr bindPort (endpointURLs dom user key bindPort gh gl)

/-! ### Concrete states used by witnesses and counterexample evaluations -/

/-- One control connection (identity 0) with one session channel (5). -/
def regA : server := initServer.startSession "K" 0 5

/-- regA plus one allocated target object (identity 0, owner connection 0). -/
def regB : server := (regA.allocTarget { KeyID := "K", Remote := 0, Host := "localhost", Port := 7 }).1

/-- Primary hostname the namer computes for the C1 scenario (empty key, port 7). -/
def c1Host : String := (endpointURLs "srv.us" "alice" [] 7 false false).headD ""

/-! ### Reachability and the registry invariant -/

/-- Reachable registry states: everything the registry operations can build
from the empty registry.  Operations that can panic contribute a step only
when they return a state. -/
inductive Reachable : server → Prop where
  | init : Reachable initServer
  | startSession (s : server) (keyID : String) (conn ch : Nat) :
      Reachable s → Reachable (s.startSession keyID conn ch)
  | endSession (s : server) (conn ch : Nat) :
      Reachable s → Reachable (s.endSession conn ch).1
  | newPort (s s' : server) (conn p : Nat) :
      Reachable s → s.newPort conn = some (s', p) → Reachable s'
  | allocTarget (s : server) (t : target) :
      Reachable s → Reachable (s.allocTarget t).1
  | insertTarget (s s' : server) (e : String) (tid : Nat) :
      Reachable s → s.insertEndpointTarget e tid = some s' → Reachable s'
  | removeTarget (s s' : server) (e : String) (tid : Nat) :
      Reachable s → s.removeEndpointTarget e tid = some s' → Reachable s'
  | closeConn (s s' : server) (conn : Nat) :
      Reachable s → s.closeConnection conn = some s' → Reachable s'

/-- The target `tid0` standing in bucket `e0` is backed by: its object on the
heap, a record for its owning connection, and a tunnelRef of that connection
whose fields are exactly (e0, tid0). -/
def refWitness (s : server) (e0 : String) (tid0 : Nat) : Prop :=
  ∃ t1, s.targetHeap tid0 = some t1 ∧
    ∃ c1, s.conns t1.Remote = some c1 ∧
      ∃ rid, rid ∈ c1.TunnelRefs ∧ s.refHeap rid = some { Endpoint := e0, Target := tid0 }

/-- Registry well-formedness, preserved by every operation: buckets are
non-empty; every bucket entry has a full refWitness; every tunnelRef of a
connection record points back to a target owned by that connection; all
tunnelRef identities in records and all allocated targets are below the
allocation counter. -/
structure RegInv (s : server) : Prop where
  bucketsNonempty : ∀ e ts, s.endpoints e = some ts → ts ≠ []
  covered : ∀ e ts tid, s.endpoints e = some ts → tid ∈ ts → refWitness s e tid
  owned : ∀ cid c rid, s.conns cid = some c → rid ∈ c.TunnelRefs →
    ∃ r, s.refHeap rid = some r ∧ ∃ t, s.targetHeap r.Target = some t ∧ t.Remote = cid
  ridFresh : ∀ cid c rid, s.conns cid = some c → rid ∈ c.TunnelRefs → rid < s.nextId
  tgtFresh : ∀ tid, s.nextId ≤ tid → s.targetHeap tid = none

/-- regB after inserting target 0 under hostname "h": one connection owning
one registered tunnel. -/
def c4S : server := (regB.insertEndpointTarget "h" 0).getD initServer

/-! ### Theorems -/

/-- SHA-256 of "abc", the FIPS 180-4 test vector. -/
theorem sha256_vector_abc :
    sha256 [ 97, 98, 99 ] =
      [ 0xba, 0x78, 0x16, 0xbf, 0x8f, 0x01, 0xcf, 0xea, 0x41, 0x41, 0x40, 0xde, 0x5d, 0xae, 0x22, 0x23,
        0xb0, 0x03, 0x61, 0xa3, 0x96, 0x17, 0x7a, 0x9c, 0xb4, 0x10, 0xff, 0x61, 0xf2, 0x00, 0x15, 0xad ] := by
  decide

/-- Base32 of "foo" with the source's alphabet is "mzxw6" (RFC 4648 vector,
lowercased). -/
theorem b32_vector_foo : b32encode [ 102, 111, 111 ] = "mzxw6" := by decide

/-- The digest always has 32 bytes. -/
theorem sha256_length (msg : List Nat) : (sha256 msg).length = 32 := by
  simp [sha256, wordBytes]

/-- The base32 encoding of n bytes has ceil(8n/5) characters. -/
theorem b32encode_length (bs : List Nat) : (b32encode bs).length = (8 * bs.length + 4) / 5 := by
  simp [b32encode, String.length]

/-- Looking up the alphabet at any index below 32 lands in the alphabet. -/
theorem b32alphabet_getD_mem : ∀ n, n < 32 → b32alphabet.contains (b32alphabet.getD n 'a') = true := by
  decide

/-- Every character the encoder emits is an alphabet character. -/
theorem b32encode_alphabet (bs : List Nat) :
    ((b32encode bs).data.all (fun c => b32alphabet.contains c)) = true := by
  rw [List.all_eq_true]
  intro c hc
  simp only [b32encode, List.mem_map, List.mem_range] at hc
  obtain ⟨i, _, rfl⟩ := hc
  exact b32alphabet_getD_mem _ (Nat.mod_lt _ (by decide))

/-- The namer's full output: primary hostname first, then the vanity names. -/
theorem endpointURLs_eq (dom user : String) (key : List Nat) (port : Nat) (gh gl : Bool) :
    endpointURLs dom user key port gh gl =
      primaryHostnameSpec dom key port :: vanitySpec dom user port gh gl := by
  cases gh <;> cases gl <;> by_cases hp : port = 1 <;>
    simp [endpointURLs, primaryHostnameSpec, vanitySpec, hp]

/-- Claim C6: for every user, public key, port and flag values, endpointURLs
is a pure function of its inputs, and its first (primary) hostname is exactly
the first 16 bytes of SHA-256 of `serialized_pubkey || 0x00 ||
decimal_ascii_of_port`, encoded without padding in the lowercase base32
alphabet "abcdefghijklmnopqrstuvwxyz234567" (exactly 26 characters,
all from that alphabet), followed by "." and the base domain. -/
theorem C6_primary_hostname (dom user : String) (key : List Nat) (port : Nat) (gh gl : Bool) :
    (endpointURLs dom user key port gh gl).head? =
        some (b32encode ((sha256 (key ++ [ 0 ] ++ decimalBytes port)).take 16) ++ "." ++ dom) ∧
    (b32encode ((sha256 (key ++ [ 0 ] ++ decimalBytes port)).take 16)).length = 26 ∧
    ((b32encode ((sha256 (key ++ [ 0 ] ++ decimalBytes port)).take 16)).data.all
        (fun c => b32alphabet.contains c)) = true := by
  refine ⟨ ?_, ?_, b32encode_alphabet _ ⟩
  · rw [endpointURLs_eq]
    rfl
  · rw [b32encode_length, List.length_take, sha256_length]
    decide

/-- Claim C7: the names endpointURLs appends after the primary hostname are
exactly: for site A (label "gh", on when the flag is true) `user.gh.dom` when
port = 1 and `user--port.gh.dom` for every other port, and for site B (label
"gl") `user-port.gl.dom` for every port; nothing for a flag that is false. -/
theorem C7_vanity_hostnames (dom user : String) (key : List Nat) (port : Nat) (gh gl : Bool) :
    (endpointURLs dom user key port gh gl).drop 1 = vanitySpec dom user port gh gl := by
  rw [endpointURLs_eq]
  rfl

/-- Claim C3 (code bug): keyMatchesAccount returns false on a request-build
error, a body-read error, and a fetched body with no matching second field,
and true on a match — but on a Do (network) error it dereferences the nil
response and panics (`none`) instead of returning false. -/
theorem C3_keyMatchesAccount_eval :
    keyMatchesAccount FetchOutcome.doError "KEYID" = none ∧
    keyMatchesAccount FetchOutcome.reqError "KEYID" = some false ∧
    keyMatchesAccount FetchOutcome.readError "KEYID" = some false ∧
    keyMatchesAccount (FetchOutcome.ok "ssh-ed25519 KEYID user@host\nssh-rsa OTHER") "KEYID" = some true ∧
    keyMatchesAccount (FetchOutcome.ok "malformed\nssh-rsa OTHER extra words") "KEYID" = some false := by
  decide

set_option maxRecDepth 100000 in
/-- Claim C1 (code bug): a tcpip-forward for port 7 followed by a
cancel-tcpip-forward for port 7 (same user, key and flags, no other
operations) leaves the endpoint index still containing the derived hostname,
mapped to the originally inserted target (identity 0): the cancel path hands
removeEndpointTarget a freshly allocated target object, so the pointer-keyed
delete never removes the stored one. -/
theorem C1_cancel_does_not_remove :
    ((regA.handleTcpipForward 0 "srv.us" "alice" [] "K" false false "localhost" 7).bind
        (fun s1 => s1.handleCancelTcpipForward 0 "srv.us" "alice" [] "K" false false "localhost" 7)).map
      (fun s2 => s2.endpoints c1Host) = some (some [ 0 ]) := by
  decide

/-- Claim C2 (code bug): after insertEndpointTarget "e" (target 0) the owning
connection holds the matching tunnelRef (identity 1, fields ("e", 0));
removeEndpointTarget "e" (target 0) removes the target from the bucket (the
key disappears) but the matching tunnelRef is still in the connection's
TunnelRefs set, because the delete uses a freshly allocated tunnelRef. -/
theorem C2_tunnelRef_not_removed :
    ((regB.insertEndpointTarget "e" 0).bind (fun s1 => s1.removeEndpointTarget "e" 0)).map
      (fun s2 => ((s2.conns 0).map sshConnection.TunnelRefs, s2.endpoints "e", s2.refHeap 1)) =
    some (some [ 1 ], none, some { Endpoint := "e", Target := 0 }) := by
  decide

/-- Claim C9: endSession on a connection with no record in the Connection
index leaves the whole registry state unchanged (no record created, both
indices untouched), does not schedule an SSH-connection close, and still
reports exit-status 0 on the channel and closes it. -/
theorem C9_endSession_missing_record (s : server) (conn ch : Nat) (h : s.conns conn = none) :
    s.endSession conn ch = (s, { exitStatus := 0, channelClosed := true, scheduledConnClose := false }) := by
  simp [server.endSession, h]

/-- Witness for C9 at the empty registry and connection 0, channel 5. -/
theorem C9_witness :
    initServer.conns 0 = none ∧
    initServer.endSession 0 5 = (initServer, { exitStatus := 0, channelClosed := true, scheduledConnClose := false }) :=
  ⟨ rfl, C9_endSession_missing_record initServer 0 5 rfl ⟩

/-- Claim C10: startSession on a connection that already has a record only
adds the channel to that record's session set; the record's KeyID,
TunnelRefs and lastPort are untouched, every other connection's record is
untouched, and the endpoint index, the heaps and the allocation counter are
untouched. -/
theorem C10_startSession_existing (s : server) (keyID : String) (conn ch : Nat) (c : sshConnection)
    (h : s.conns conn = some c) :
    (s.startSession keyID conn ch).conns conn = some { c with Sessions := setInsert ch c.Sessions } ∧
    (∀ k, k ≠ conn → (s.startSession keyID conn ch).conns k = s.conns k) ∧
    (s.startSession keyID conn ch).endpoints = s.endpoints ∧
    (s.startSession keyID conn ch).targetHeap = s.targetHeap ∧
    (s.startSession keyID conn ch).refHeap = s.refHeap ∧
    (s.startSession keyID conn ch).nextId = s.nextId := by
  have hs : s.startSession keyID conn ch =
      { s with conns := upd s.conns conn (some { c with Sessions := setInsert ch c.Sessions }) } := by
    unfold server.startSession
    rw [h]
  rw [hs]
  refine ⟨ by simp [upd], fun k hk => by simp [upd, hk], rfl, rfl, rfl, rfl ⟩

/-- Witness for C10: the one-connection registry, a second channel 6 and a
different key id "L"; the record keeps KeyID "K" and only gains the channel. -/
theorem C10_witness :
    regA.conns 0 = some { KeyID := "K", Sessions := [ 5 ], TunnelRefs := [], lastPort := 0 } ∧
    ((regA.startSession "L" 0 6).conns 0 =
        some { KeyID := "K", Sessions := setInsert 6 [ 5 ], TunnelRefs := [], lastPort := 0 } ∧
      (∀ k, k ≠ 0 → (regA.startSession "L" 0 6).conns k = regA.conns k) ∧
      (regA.startSession "L" 0 6).endpoints = regA.endpoints ∧
      (regA.startSession "L" 0 6).targetHeap = regA.targetHeap ∧
      (regA.startSession "L" 0 6).refHeap = regA.refHeap ∧
      (regA.startSession "L" 0 6).nextId = regA.nextId) :=
  ⟨ rfl, C10_startSession_existing regA "L" 0 6
      { KeyID := "K", Sessions := [ 5 ], TunnelRefs := [], lastPort := 0 } rfl ⟩

/-- Reduction of insertEndpointTarget when the target and its owner exist. -/
theorem insertEndpointTarget_eq (s : server) (e : String) (tid : Nat) (t : target) (c : sshConnection)
    (ht : s.targetHeap tid = some t) (hc : s.conns t.Remote = some c) :
    s.insertEndpointTarget e tid = some { s with
      endpoints := upd s.endpoints e
        (some (match s.endpoints e with | some ts => setInsert tid ts | none => [ tid ])),
      conns := upd s.conns t.Remote (some { c with TunnelRefs := setInsert s.nextId c.TunnelRefs }),
      refHeap := upd s.refHeap s.nextId (some { Endpoint := e, Target := tid }),
      nextId := s.nextId + 1 } := by
  simp only [server.insertEndpointTarget, ht, hc]

/-- Reduction of removeEndpointTarget when the bucket is absent. -/
theorem removeEndpointTarget_noBucket (s : server) (e : String) (tid : Nat) (t : target)
    (ht : s.targetHeap tid = some t) (hb : s.endpoints e = none) :
    s.removeEndpointTarget e tid = some s := by
  simp only [server.removeEndpointTarget, ht, hb]

/-- Reduction of removeEndpointTarget when the bucket and the owner exist. -/
theorem removeEndpointTarget_eq (s : server) (e : String) (tid : Nat) (t : target) (ts : List Nat) (c : sshConnection)
    (ht : s.targetHeap tid = some t) (hb : s.endpoints e = some ts) (hc : s.conns t.Remote = some c) :
    s.removeEndpointTarget e tid = some { s with
      endpoints := upd s.endpoints e
        (if (ts.filter (fun x => x != tid)).isEmpty then none else some (ts.filter (fun x => x != tid))),
      conns := upd s.conns t.Remote (some { c with TunnelRefs := c.TunnelRefs.filter (fun x => x != s.nextId) }),
      nextId := s.nextId + 1 } := by
  simp only [server.removeEndpointTarget, ht, hb, hc]

/-- Filtering away an element that is not in the list changes nothing. -/
theorem filter_ne_of_not_mem (ts : List Nat) (tid : Nat) (h : tid ∉ ts) :
    ts.filter (fun x => x != tid) = ts := by
  rw [List.filter_eq_self]
  intro a ha
  rw [bne_iff_ne]
  rintro rfl
  exact h ha

/-- Claim C8: from any registry state in which the target exists, its owner
has a record, and the target is not yet in the endpoint's bucket (and the
bucket, when present, is non-empty, as every reachable bucket is),
insertEndpointTarget followed by removeEndpointTarget with the same target
object restores the Endpoint index exactly. -/
theorem C8_insert_remove_roundtrip (s : server) (e : String) (tid : Nat) (t : target) (c : sshConnection)
    (ht : s.targetHeap tid = some t) (hc : s.conns t.Remote = some c)
    (hfree : ∀ ts, s.endpoints e = some ts → tid ∉ ts ∧ ts ≠ []) :
    ∀ x, ((s.insertEndpointTarget e tid).bind (fun s1 => s1.removeEndpointTarget e tid)).map
        (fun s2 => s2.endpoints x) = some (s.endpoints x) := by
  intro x
  cases hb : s.endpoints e with
  | none =>
    by_cases hx : x = e
    · subst hx
      simp [server.insertEndpointTarget, server.removeEndpointTarget, ht, hc, hb, upd,
        Option.bind, setInsert]
    · simp [server.insertEndpointTarget, server.removeEndpointTarget, ht, hc, hb, upd,
        Option.bind, setInsert, hx]
  | some ts =>
    obtain ⟨ hnot, hne ⟩ := hfree ts hb
    cases ts with
    | nil => exact absurd rfl hne
    | cons a l =>
      have ha : a ≠ tid := by
        rintro rfl
        exact hnot (List.mem_cons_self a l)
      have hl : tid ∉ l := fun h => hnot (List.mem_cons_of_mem a h)
      by_cases hx : x = e
      · subst hx
        simp [server.insertEndpointTarget, server.removeEndpointTarget, ht, hc, hb, upd,
          Option.bind, setInsert, hnot, ha, hl, filter_ne_of_not_mem _ _ hnot]
      · simp [server.insertEndpointTarget, server.removeEndpointTarget, ht, hc, hb, upd,
          Option.bind, setInsert, hnot, ha, hl, filter_ne_of_not_mem _ _ hnot, hx]

/-- Witness for C8 on the one-connection registry with target 0 and a fresh
hostname "h". -/
theorem C8_witness :
    regB.targetHeap 0 = some { KeyID := "K", Remote := 0, Host := "localhost", Port := 7 } ∧
    (∀ x, ((regB.insertEndpointTarget "h" 0).bind (fun s1 => s1.removeEndpointTarget "h" 0)).map
        (fun s2 => s2.endpoints x) = some (regB.endpoints x)) :=
  ⟨ rfl, C8_insert_remove_roundtrip regB "h" 0 _ _ rfl rfl
      (fun _ts hts => Option.noConfusion hts) ⟩

/-- Updated key reads the new value. -/
theorem upd_same {κ β : Type} [DecidableEq κ] (f : κ → Option β) (k : κ) (v : Option β) :
    upd f k v k = v := by
  simp [upd]

/-- Other keys read the old value. -/
theorem upd_ne {κ β : Type} [DecidableEq κ] (f : κ → Option β) (k : κ) (v : Option β) (x : κ)
    (h : x ≠ k) : upd f k v x = f x := by
  simp [upd, h]

/-- Membership in a map-set insert. -/
theorem mem_setInsert {a b : Nat} {l : List Nat} : a ∈ setInsert b l ↔ a = b ∨ a ∈ l := by
  by_cases h : b ∈ l
  · simp only [setInsert, if_pos h]
    constructor
    · exact Or.inr
    · rintro (rfl | ha)
      · exact h
      · exact ha
  · simp [setInsert, if_neg h, List.mem_cons]

/-- A map-set insert is never empty. -/
theorem setInsert_ne_nil (a : Nat) (l : List Nat) : setInsert a l ≠ [] := by
  by_cases h : a ∈ l
  · simp only [setInsert, if_pos h]
    rintro rfl
    exact absurd h (List.not_mem_nil a)
  · simp [setInsert, if_neg h]

/-- Membership in a map-set delete. -/
theorem mem_filter_ne {a k : Nat} {l : List Nat} :
    a ∈ l.filter (fun x => x != k) ↔ a ∈ l ∧ a ≠ k := by
  simp [List.mem_filter]

/-- A refWitness survives the state change of insertEndpointTarget: the
endpoint index is irrelevant, the owner's TunnelRefs only grow, and the
refHeap changes only at the fresh identity. -/
theorem refWitness_insert (s : server) (E : String → Option (List Nat)) (t : target) (c : sshConnection)
    (hc : s.conns t.Remote = some c)
    (hfr : ∀ cid c0 rid, s.conns cid = some c0 → rid ∈ c0.TunnelRefs → rid < s.nextId)
    (v : tunnelRef) (e0 : String) (tid0 : Nat) (hW : refWitness s e0 tid0) :
    refWitness { s with
      endpoints := E,
      conns := upd s.conns t.Remote (some { c with TunnelRefs := setInsert s.nextId c.TunnelRefs }),
      refHeap := upd s.refHeap s.nextId (some v),
      nextId := s.nextId + 1 } e0 tid0 := by
  obtain ⟨ t1, ht1, c1, hc1, rid, hrid, hrh ⟩ := hW
  have hlt : rid < s.nextId := hfr _ _ _ hc1 hrid
  refine ⟨ t1, ht1, ?_ ⟩
  by_cases hk : t1.Remote = t.Remote
  · have hcc : c1 = c := by
      rw [hk] at hc1
      exact Option.some.inj (hc1.symm.trans hc)
    refine ⟨ { c with TunnelRefs := setInsert s.nextId c.TunnelRefs }, ?_, rid, ?_, ?_ ⟩
    · show upd s.conns t.Remote _ t1.Remote = _
      rw [hk, upd_same]
    · exact mem_setInsert.mpr (Or.inr (hcc ▸ hrid))
    · show upd s.refHeap s.nextId (some v) rid = _
      rw [upd_ne _ _ _ _ (Nat.ne_of_lt hlt)]
      exact hrh
  · refine ⟨ c1, ?_, rid, hrid, ?_ ⟩
    · show upd s.conns t.Remote _ t1.Remote = _
      rw [upd_ne _ _ _ _ hk]
      exact hc1
    · show upd s.refHeap s.nextId (some v) rid = _
      rw [upd_ne _ _ _ _ (Nat.ne_of_lt hlt)]
      exact hrh

/-- A refWitness survives the state change of removeEndpointTarget: the
owner's TunnelRefs lose only the fresh identity, which no stored ref has. -/
theorem refWitness_remove (s : server) (E : String → Option (List Nat)) (t : target) (c : sshConnection)
    (hc : s.conns t.Remote = some c)
    (hfr : ∀ cid c0 rid, s.conns cid = some c0 → rid ∈ c0.TunnelRefs → rid < s.nextId)
    (e0 : String) (tid0 : Nat) (hW : refWitness s e0 tid0) :
    refWitness { s with
      endpoints := E,
      conns := upd s.conns t.Remote (some { c with TunnelRefs := c.TunnelRefs.filter (fun x => x != s.nextId) }),
      nextId := s.nextId + 1 } e0 tid0 := by
  obtain ⟨ t1, ht1, c1, hc1, rid, hrid, hrh ⟩ := hW
  refine ⟨ t1, ht1, ?_ ⟩
  by_cases hk : t1.Remote = t.Remote
  · have hcc : c1 = c := by
      rw [hk] at hc1
      exact Option.some.inj (hc1.symm.trans hc)
    have hlt : rid < s.nextId := hfr _ _ _ hc1 hrid
    refine ⟨ { c with TunnelRefs := c.TunnelRefs.filter (fun x => x != s.nextId) }, ?_, rid, ?_, hrh ⟩
    · show upd s.conns t.Remote _ t1.Remote = _
      rw [hk, upd_same]
    · exact mem_filter_ne.mpr ⟨ hcc ▸ hrid, Nat.ne_of_lt hlt ⟩
  · refine ⟨ c1, ?_, rid, hrid, hrh ⟩
    show upd s.conns t.Remote _ t1.Remote = _
    rw [upd_ne _ _ _ _ hk]
    exact hc1

/-- A refWitness survives replacing one connection record by one with the
same TunnelRefs (startSession, endSession, newPort), including creating a
record where none existed. -/
theorem refWitness_connset (s : server) (k : Nat) (cNew : sshConnection)
    (hT : ∀ c1, s.conns k = some c1 → cNew.TunnelRefs = c1.TunnelRefs)
    (e0 : String) (tid0 : Nat) (hW : refWitness s e0 tid0) :
    refWitness { s with conns := upd s.conns k (some cNew) } e0 tid0 := by
  obtain ⟨ t1, ht1, c1, hc1, rid, hrid, hrh ⟩ := hW
  refine ⟨ t1, ht1, ?_ ⟩
  by_cases hk : t1.Remote = k
  · refine ⟨ cNew, ?_, rid, ?_, hrh ⟩
    · show upd s.conns k (some cNew) t1.Remote = _
      rw [hk, upd_same]
    · rw [hT c1 (hk ▸ hc1)]
      exact hrid
  · refine ⟨ c1, ?_, rid, hrid, hrh ⟩
    show upd s.conns k (some cNew) t1.Remote = _
    rw [upd_ne _ _ _ _ hk]
    exact hc1

/-- A refWitness survives allocating a fresh target. -/
theorem refWitness_alloc (s : server) (t0 : target)
    (hfresh : ∀ tid, s.nextId ≤ tid → s.targetHeap tid = none)
    (e0 : String) (tid0 : Nat) (hW : refWitness s e0 tid0) :
    refWitness { s with
      targetHeap := upd s.targetHeap s.nextId (some t0),
      nextId := s.nextId + 1 } e0 tid0 := by
  obtain ⟨ t1, ht1, rest ⟩ := hW
  have hne : tid0 ≠ s.nextId := by
    intro hh
    rw [hh, hfresh s.nextId (le_refl s.nextId)] at ht1
    cases ht1
  refine ⟨ t1, ?_, rest ⟩
  show upd s.targetHeap s.nextId (some t0) tid0 = _
  rw [upd_ne _ _ _ _ hne]
  exact ht1

/-- The empty registry is well-formed. -/
theorem inv_init : RegInv initServer := by
  refine ⟨ ?_, ?_, ?_, ?_, ?_ ⟩
  · intro e ts h
    exact Option.noConfusion h
  · intro e ts tid h
    exact absurd h (by exact Option.noConfusion)
  · intro cid c rid h
    exact absurd h (by exact Option.noConfusion)
  · intro cid c rid h
    exact absurd h (by exact Option.noConfusion)
  · intro tid h
    rfl

/-- Replacing (or creating) one connection record without changing its
TunnelRefs preserves the invariant. -/
theorem inv_connset (s : server) (k : Nat) (cNew : sshConnection)
    (hT : ∀ c1, s.conns k = some c1 → cNew.TunnelRefs = c1.TunnelRefs)
    (hN : s.conns k = none → cNew.TunnelRefs = [])
    (hI : RegInv s) : RegInv { s with conns := upd s.conns k (some cNew) } := by
  refine ⟨ hI.bucketsNonempty, ?_, ?_, ?_, hI.tgtFresh ⟩
  · intro e ts tid hb hm
    exact refWitness_connset s k cNew hT e tid (hI.covered e ts tid hb hm)
  · intro cid c rid hc hr
    have hc' : upd s.conns k (some cNew) cid = some c := hc
    by_cases hk : cid = k
    · subst hk
      rw [upd_same] at hc'
      have hcn : cNew = c := Option.some.inj hc'
      rw [← hcn] at hr
      cases hck : s.conns cid with
      | none =>
        rw [hN hck] at hr
        exact absurd hr (List.not_mem_nil rid)
      | some c1 =>
        rw [hT c1 hck] at hr
        exact hI.owned cid c1 rid hck hr
    · rw [upd_ne _ _ _ _ hk] at hc'
      exact hI.owned cid c rid hc' hr
  · intro cid c rid hc hr
    have hc' : upd s.conns k (some cNew) cid = some c := hc
    by_cases hk : cid = k
    · subst hk
      rw [upd_same] at hc'
      have hcn : cNew = c := Option.some.inj hc'
      rw [← hcn] at hr
      cases hck : s.conns cid with
      | none =>
        rw [hN hck] at hr
        exact absurd hr (List.not_mem_nil rid)
      | some c1 =>
        rw [hT c1 hck] at hr
        exact hI.ridFresh cid c1 rid hck hr
    · rw [upd_ne _ _ _ _ hk] at hc'
      exact hI.ridFresh cid c rid hc' hr

/-- startSession preserves the invariant. -/
theorem inv_startSession (s : server) (keyID : String) (conn ch : Nat) (hI : RegInv s) :
    RegInv (s.startSession keyID conn ch) := by
  cases hcc : s.conns conn with
  | none =>
    have hs : s.startSession keyID conn ch =
        { s with conns := upd s.conns conn (some (newConnection keyID ch)) } := by
      unfold server.startSession
      rw [hcc]
    rw [hs]
    refine inv_connset s conn _ ?_ (fun _ => rfl) hI
    intro c1 h1
    rw [hcc] at h1
    cases h1
  | some c =>
    have hs : s.startSession keyID conn ch =
        { s with conns := upd s.conns conn (some { c with Sessions := setInsert ch c.Sessions }) } := by
      unfold server.startSession
      rw [hcc]
    rw [hs]
    refine inv_connset s conn _ ?_ ?_ hI
    · intro c1 h1
      rw [hcc] at h1
      rw [← Option.some.inj h1]
    · intro h1
      rw [hcc] at h1
      cases h1

/-- endSession's registry effect preserves the invariant. -/
theorem inv_endSession (s : server) (conn ch : Nat) (hI : RegInv s) :
    RegInv (s.endSession conn ch).1 := by
  cases hcc : s.conns conn with
  | none =>
    have hs : (s.endSession conn ch).1 = s := by
      unfold server.endSession
      rw [hcc]
    rw [hs]
    exact hI
  | some c =>
    have hs : (s.endSession conn ch).1 =
        { s with conns := upd s.conns conn (some { c with Sessions := c.Sessions.filter (fun x => x != ch) }) } := by
      unfold server.endSession
      rw [hcc]
    rw [hs]
    refine inv_connset s conn _ ?_ ?_ hI
    · intro c1 h1
      rw [hcc] at h1
      rw [← Option.some.inj h1]
    · intro h1
      rw [hcc] at h1
      cases h1

/-- newPort preserves the invariant. -/
theorem inv_newPort (s s' : server) (conn p : Nat) (hI : RegInv s)
    (h : s.newPort conn = some (s', p)) : RegInv s' := by
  cases hcc : s.conns conn with
  | none => simp [server.newPort, hcc] at h
  | some c =>
    have heq : s.newPort conn =
        some ({ s with conns := upd s.conns conn (some { c with lastPort := (c.lastPort + 1) % 65536 }) },
          (c.lastPort + 1) % 65536) := by
      simp only [server.newPort, hcc]
    rw [h] at heq
    have h2 := (Prod.mk.injEq _ _ _ _).mp (Option.some.inj heq)
    rw [h2.1]
    refine inv_connset s conn _ ?_ ?_ hI
    · intro c1 h1
      rw [hcc] at h1
      rw [← Option.some.inj h1]
    · intro h1
      rw [hcc] at h1
      cases h1

/-- allocTarget preserves the invariant. -/
theorem inv_alloc (s : server) (t0 : target) (hI : RegInv s) : RegInv (s.allocTarget t0).1 := by
  refine ⟨ hI.bucketsNonempty, ?_, ?_, ?_, ?_ ⟩
  · intro e ts tid hb hm
    exact refWitness_alloc s t0 hI.tgtFresh e tid (hI.covered e ts tid hb hm)
  · intro cid c rid hc hr
    obtain ⟨ r, hrh, t1, ht1, hrem ⟩ := hI.owned cid c rid hc hr
    have hne : r.Target ≠ s.nextId := by
      intro hh
      rw [hh, hI.tgtFresh s.nextId (le_refl _)] at ht1
      cases ht1
    refine ⟨ r, hrh, t1, ?_, hrem ⟩
    show upd s.targetHeap s.nextId (some t0) r.Target = _
    rw [upd_ne _ _ _ _ hne]
    exact ht1
  · intro cid c rid hc hr
    exact Nat.lt_succ_of_lt (hI.ridFresh cid c rid hc hr)
  · intro tid htid
    have htid' : s.nextId + 1 ≤ tid := htid
    have h1 : tid ≠ s.nextId := by omega
    show upd s.targetHeap s.nextId (some t0) tid = none
    rw [upd_ne _ _ _ _ h1]
    exact hI.tgtFresh tid (Nat.le_of_succ_le htid')

/-- insertEndpointTarget's state change preserves the invariant, for any new
bucket whose members are the inserted target or old members of the bucket. -/
theorem inv_insert_aux (s : server) (e : String) (tid : Nat) (t : target) (c : sshConnection)
    (NB : List Nat) (hI : RegInv s)
    (ht : s.targetHeap tid = some t) (hcr : s.conns t.Remote = some c)
    (hNB1 : NB ≠ [])
    (hNB2 : ∀ tid0, tid0 ∈ NB → tid0 = tid ∨ ∃ ts, s.endpoints e = some ts ∧ tid0 ∈ ts) :
    RegInv { s with
      endpoints := upd s.endpoints e (some NB),
      conns := upd s.conns t.Remote (some { c with TunnelRefs := setInsert s.nextId c.TunnelRefs }),
      refHeap := upd s.refHeap s.nextId (some { Endpoint := e, Target := tid }),
      nextId := s.nextId + 1 } := by
  refine ⟨ ?_, ?_, ?_, ?_, ?_ ⟩
  · intro e0 ts0 hb
    have hb' : upd s.endpoints e (some NB) e0 = some ts0 := hb
    by_cases he : e0 = e
    · subst he
      rw [upd_same] at hb'
      rw [← Option.some.inj hb']
      exact hNB1
    · rw [upd_ne _ _ _ _ he] at hb'
      exact hI.bucketsNonempty e0 ts0 hb'
  · intro e0 ts0 tid0 hb hm
    have hb' : upd s.endpoints e (some NB) e0 = some ts0 := hb
    by_cases he : e0 = e
    · subst he
      rw [upd_same] at hb'
      rw [← Option.some.inj hb'] at hm
      rcases hNB2 tid0 hm with rfl | ⟨ ts, hts, hmem ⟩
      · refine ⟨ t, ht, { c with TunnelRefs := setInsert s.nextId c.TunnelRefs }, ?_, s.nextId, ?_, ?_ ⟩
        · show upd s.conns t.Remote _ t.Remote = _
          rw [upd_same]
        · exact mem_setInsert.mpr (Or.inl rfl)
        · show upd s.refHeap s.nextId _ s.nextId = _
          rw [upd_same]
      · exact refWitness_insert s _ t c hcr hI.ridFresh _ e0 tid0 (hI.covered e0 ts tid0 hts hmem)
    · rw [upd_ne _ _ _ _ he] at hb'
      exact refWitness_insert s _ t c hcr hI.ridFresh _ e0 tid0 (hI.covered e0 ts0 tid0 hb' hm)
  · intro cid c0 rid hc0 hr0
    have hc0' : upd s.conns t.Remote (some { c with TunnelRefs := setInsert s.nextId c.TunnelRefs }) cid = some c0 := hc0
    by_cases hk : cid = t.Remote
    · subst hk
      rw [upd_same] at hc0'
      rw [← Option.some.inj hc0'] at hr0
      rcases mem_setInsert.mp hr0 with rfl | hmem
      · refine ⟨ { Endpoint := e, Target := tid }, ?_, t, ht, rfl ⟩
        show upd s.refHeap s.nextId _ s.nextId = _
        rw [upd_same]
      · obtain ⟨ r, hrh, t1, ht1, hrem ⟩ := hI.owned t.Remote c rid hcr hmem
        have hlt : rid < s.nextId := hI.ridFresh t.Remote c rid hcr hmem
        refine ⟨ r, ?_, t1, ht1, hrem ⟩
        show upd s.refHeap s.nextId _ rid = _
        rw [upd_ne _ _ _ _ (Nat.ne_of_lt hlt)]
        exact hrh
    · rw [upd_ne _ _ _ _ hk] at hc0'
      obtain ⟨ r, hrh, t1, ht1, hrem ⟩ := hI.owned cid c0 rid hc0' hr0
      have hlt : rid < s.nextId := hI.ridFresh cid c0 rid hc0' hr0
      refine ⟨ r, ?_, t1, ht1, hrem ⟩
      show upd s.refHeap s.nextId _ rid = _
      rw [upd_ne _ _ _ _ (Nat.ne_of_lt hlt)]
      exact hrh
  · intro cid c0 rid hc0 hr0
    show rid < s.nextId + 1
    have hc0' : upd s.conns t.Remote (some { c with TunnelRefs := setInsert s.nextId c.TunnelRefs }) cid = some c0 := hc0
    by_cases hk : cid = t.Remote
    · subst hk
      rw [upd_same] at hc0'
      rw [← Option.some.inj hc0'] at hr0
      rcases mem_setInsert.mp hr0 with rfl | hmem
      · exact Nat.lt_succ_self _
      · exact Nat.lt_succ_of_lt (hI.ridFresh t.Remote c rid hcr hmem)
    · rw [upd_ne _ _ _ _ hk] at hc0'
      exact Nat.lt_succ_of_lt (hI.ridFresh cid c0 rid hc0' hr0)
  · intro tid0 htid
    have htid' : s.nextId + 1 ≤ tid0 := htid
    show s.targetHeap tid0 = none
    exact hI.tgtFresh tid0 (Nat.le_of_succ_le htid')

/-- insertEndpointTarget preserves the invariant. -/
theorem inv_insert (s s' : server) (e : String) (tid : Nat) (hI : RegInv s)
    (h : s.insertEndpointTarget e tid = some s') : RegInv s' := by
  cases ht : s.targetHeap tid with
  | none => simp [server.insertEndpointTarget, ht] at h
  | some t =>
    cases hcr : s.conns t.Remote with
    | none => simp [server.insertEndpointTarget, ht, hcr] at h
    | some c =>
      have heq := insertEndpointTarget_eq s e tid t c ht hcr
      rw [h] at heq
      have hs := Option.some.inj heq
      cases hbe : s.endpoints e with
      | none =>
        simp only [hbe] at hs
        rw [hs]
        refine inv_insert_aux s e tid t c [ tid ] hI ht hcr (by simp) ?_
        intro tid0 h0
        exact Or.inl (by simpa using h0)
      | some ts =>
        simp only [hbe] at hs
        rw [hs]
        refine inv_insert_aux s e tid t c (setInsert tid ts) hI ht hcr (setInsert_ne_nil _ _) ?_
        intro tid0 h0
        rcases mem_setInsert.mp h0 with rfl | hmem
        · exact Or.inl rfl
        · exact Or.inr ⟨ ts, hbe, hmem ⟩

/-- removeEndpointTarget preserves the invariant. -/
theorem inv_remove (s s' : server) (e : String) (tid : Nat) (hI : RegInv s)
    (h : s.removeEndpointTarget e tid = some s') : RegInv s' := by
  cases ht : s.targetHeap tid with
  | none => simp [server.removeEndpointTarget, ht] at h
  | some t =>
    cases hbe : s.endpoints e with
    | none =>
      have heq := removeEndpointTarget_noBucket s e tid t ht hbe
      rw [h] at heq
      rw [Option.some.inj heq]
      exact hI
    | some ts =>
      cases hcr : s.conns t.Remote with
      | none => simp [server.removeEndpointTarget, ht, hbe, hcr] at h
      | some c =>
        have heq := removeEndpointTarget_eq s e tid t ts c ht hbe hcr
        rw [h] at heq
        rw [Option.some.inj heq]
        refine ⟨ ?_, ?_, ?_, ?_, ?_ ⟩
        · intro e0 ts0 hb
          have hb' : upd s.endpoints e
              (if (ts.filter (fun x => x != tid)).isEmpty then none
               else some (ts.filter (fun x => x != tid))) e0 = some ts0 := hb
          by_cases he : e0 = e
          · subst he
            rw [upd_same] at hb'
            by_cases hemp : (ts.filter (fun x => x != tid)).isEmpty
            · rw [if_pos hemp] at hb'
              cases hb'
            · rw [if_neg hemp] at hb'
              rw [← Option.some.inj hb']
              intro hnil
              rw [hnil] at hemp
              exact hemp rfl
          · rw [upd_ne _ _ _ _ he] at hb'
            exact hI.bucketsNonempty e0 ts0 hb'
        · intro e0 ts0 tid0 hb hm
          have hb' : upd s.endpoints e
              (if (ts.filter (fun x => x != tid)).isEmpty then none
               else some (ts.filter (fun x => x != tid))) e0 = some ts0 := hb
          by_cases he : e0 = e
          · subst he
            rw [upd_same] at hb'
            by_cases hemp : (ts.filter (fun x => x != tid)).isEmpty
            · rw [if_pos hemp] at hb'
              cases hb'
            · rw [if_neg hemp] at hb'
              rw [← Option.some.inj hb'] at hm
              exact refWitness_remove s _ t c hcr hI.ridFresh e0 tid0
                (hI.covered e0 ts tid0 hbe (mem_filter_ne.mp hm).1)
          · rw [upd_ne _ _ _ _ he] at hb'
            exact refWitness_remove s _ t c hcr hI.ridFresh e0 tid0
              (hI.covered e0 ts0 tid0 hb' hm)
        · intro cid c0 rid hc0 hr0
          have hc0' : upd s.conns t.Remote
              (some { c with TunnelRefs := c.TunnelRefs.filter (fun x => x != s.nextId) }) cid = some c0 := hc0
          by_cases hk : cid = t.Remote
          · subst hk
            rw [upd_same] at hc0'
            rw [← Option.some.inj hc0'] at hr0
            exact hI.owned t.Remote c rid hcr (mem_filter_ne.mp hr0).1
          · rw [upd_ne _ _ _ _ hk] at hc0'
            exact hI.owned cid c0 rid hc0' hr0
        · intro cid c0 rid hc0 hr0
          show rid < s.nextId + 1
          have hc0' : upd s.conns t.Remote
              (some { c with TunnelRefs := c.TunnelRefs.filter (fun x => x != s.nextId) }) cid = some c0 := hc0
          by_cases hk : cid = t.Remote
          · subst hk
            rw [upd_same] at hc0'
            rw [← Option.some.inj hc0'] at hr0
            exact Nat.lt_succ_of_lt (hI.ridFresh t.Remote c rid hcr (mem_filter_ne.mp hr0).1)
          · rw [upd_ne _ _ _ _ hk] at hc0'
            exact Nat.lt_succ_of_lt (hI.ridFresh cid c0 rid hc0' hr0)
        · intro tid0 htid
          have htid' : s.nextId + 1 ≤ tid0 := htid
          show s.targetHeap tid0 = none
          exact hI.tgtFresh tid0 (Nat.le_of_succ_le htid')

/-- Main lemma for closeConnection's loop: from a well-formed state, removing
the targets of a list of tunnelRefs succeeds, keeps the state well-formed,
and — when the list covers every bucket entry owned by connection `cj` —
leaves no bucket entry owned by `cj`. -/
theorem removeRefs_spec (cj : Nat) : ∀ (rids : List Nat) (s : server), RegInv s →
    (∀ rid, rid ∈ rids → ∃ cid c0, s.conns cid = some c0 ∧ rid ∈ c0.TunnelRefs) →
    (∀ e ts tid t, s.endpoints e = some ts → tid ∈ ts → s.targetHeap tid = some t → t.Remote = cj →
       ∃ rid, rid ∈ rids ∧ s.refHeap rid = some { Endpoint := e, Target := tid }) →
    ∃ s1, removeRefs s rids = some s1 ∧ RegInv s1 ∧
      (∀ e ts tid t, s1.endpoints e = some ts → tid ∈ ts → s1.targetHeap tid = some t → t.Remote ≠ cj) := by
  intro rids
  induction rids with
  | nil =>
    intro s hI hcov hpend
    refine ⟨ s, rfl, hI, ?_ ⟩
    intro e ts tid t hb hm hh hr
    obtain ⟨ rid, hrid, _ ⟩ := hpend e ts tid t hb hm hh hr
    exact absurd hrid (List.not_mem_nil rid)
  | cons rid rest ih =>
    intro s hI hcov hpend
    obtain ⟨ cid, c0, hcid, hmem ⟩ := hcov rid (List.mem_cons_self rid rest)
    obtain ⟨ r, hrH, t0, ht0, hrem ⟩ := hI.owned cid c0 rid hcid hmem
    have hcw : s.conns t0.Remote = some c0 := by
      rw [hrem]
      exact hcid
    cases hbe : s.endpoints r.Endpoint with
    | none =>
      have hrm := removeEndpointTarget_noBucket s r.Endpoint r.Target t0 ht0 hbe
      have hcov' : ∀ rid', rid' ∈ rest → ∃ cid c1, s.conns cid = some c1 ∧ rid' ∈ c1.TunnelRefs :=
        fun rid' h' => hcov rid' (List.mem_cons_of_mem rid h')
      have hpend' : ∀ e ts tid t, s.endpoints e = some ts → tid ∈ ts → s.targetHeap tid = some t →
          t.Remote = cj → ∃ rid', rid' ∈ rest ∧ s.refHeap rid' = some { Endpoint := e, Target := tid } := by
        intro e ts tid t hb hm hh hr
        obtain ⟨ rid', hrid', hdata ⟩ := hpend e ts tid t hb hm hh hr
        rcases List.mem_cons.mp hrid' with rfl | hmem'
        · rw [hrH] at hdata
          have hrdat := Option.some.inj hdata
          rw [hrdat] at hbe
          rw [hb] at hbe
          cases hbe
        · exact ⟨ rid', hmem', hdata ⟩
      obtain ⟨ s1, hrr, hI1, hno ⟩ := ih s hI hcov' hpend'
      refine ⟨ s1, ?_, hI1, hno ⟩
      show removeRefs s (rid :: rest) = some s1
      simp only [removeRefs, hrH, hrm]
      exact hrr
    | some ts =>
      have hrm := removeEndpointTarget_eq s r.Endpoint r.Target t0 ts c0 ht0 hbe hcw
      have hI2 := inv_remove s _ r.Endpoint r.Target hI hrm
      have hcov2 : ∀ rid', rid' ∈ rest →
          ∃ cid c1, upd s.conns t0.Remote
              (some { c0 with TunnelRefs := c0.TunnelRefs.filter (fun x => x != s.nextId) }) cid = some c1 ∧
            rid' ∈ c1.TunnelRefs := by
        intro rid' h'
        obtain ⟨ cid', c', hc', hm' ⟩ := hcov rid' (List.mem_cons_of_mem rid h')
        by_cases hk : cid' = t0.Remote
        · refine ⟨ t0.Remote, { c0 with TunnelRefs := c0.TunnelRefs.filter (fun x => x != s.nextId) }, ?_, ?_ ⟩
          · rw [upd_same]
          · have hlt : rid' < s.nextId := hI.ridFresh cid' c' rid' hc' hm'
            apply mem_filter_ne.mpr
            refine ⟨ ?_, Nat.ne_of_lt hlt ⟩
            rw [hk] at hc'
            have hcc : c' = c0 := Option.some.inj (hc'.symm.trans hcw)
            rw [← hcc]
            exact hm'
        · refine ⟨ cid', c', ?_, hm' ⟩
          rw [upd_ne _ _ _ _ hk]
          exact hc'
      have hpend2 : ∀ e ts1 tid t,
          (upd s.endpoints r.Endpoint
            (if (ts.filter (fun x => x != r.Target)).isEmpty then none
             else some (ts.filter (fun x => x != r.Target)))) e = some ts1 →
          tid ∈ ts1 → s.targetHeap tid = some t → t.Remote = cj →
          ∃ rid', rid' ∈ rest ∧ s.refHeap rid' = some { Endpoint := e, Target := tid } := by
        intro e ts1 tid t hb hm hh hr
        by_cases he : e = r.Endpoint
        · rw [he, upd_same] at hb
          by_cases hemp : (ts.filter (fun x => x != r.Target)).isEmpty
          · rw [if_pos hemp] at hb
            cases hb
          · rw [if_neg hemp] at hb
            rw [← Option.some.inj hb] at hm
            obtain ⟨ hmem1, hne1 ⟩ := mem_filter_ne.mp hm
            obtain ⟨ rid', hrid', hdata ⟩ := hpend r.Endpoint ts tid t hbe hmem1 hh hr
            rcases List.mem_cons.mp hrid' with rfl | hmem'
            · rw [hrH] at hdata
              have hrdat := Option.some.inj hdata
              have htg : r.Target = tid := by rw [hrdat]
              exact absurd htg.symm hne1
            · refine ⟨ rid', hmem', ?_ ⟩
              rw [he]
              exact hdata
        · rw [upd_ne _ _ _ _ he] at hb
          obtain ⟨ rid', hrid', hdata ⟩ := hpend e ts1 tid t hb hm hh hr
          rcases List.mem_cons.mp hrid' with rfl | hmem'
          · rw [hrH] at hdata
            have hrdat := Option.some.inj hdata
            have hep : r.Endpoint = e := by rw [hrdat]
            exact absurd hep.symm he
          · exact ⟨ rid', hmem', hdata ⟩
      obtain ⟨ s1, hrr, hI1, hno ⟩ := ih { s with
          endpoints := upd s.endpoints r.Endpoint
            (if (ts.filter (fun x => x != r.Target)).isEmpty then none
             else some (ts.filter (fun x => x != r.Target))),
          conns := upd s.conns t0.Remote
            (some { c0 with TunnelRefs := c0.TunnelRefs.filter (fun x => x != s.nextId) }),
          nextId := s.nextId + 1 } hI2 hcov2 hpend2
      refine ⟨ s1, ?_, hI1, hno ⟩
      show removeRefs s (rid :: rest) = some s1
      simp only [removeRefs, hrH, hrm]
      exact hrr

/-- closeConnection from any well-formed state: it succeeds, the result is
well-formed, the connection's record is gone, and no bucket entry is owned by
the closed connection. -/
theorem closeConnection_spec (s : server) (conn : Nat) (hI : RegInv s) :
    ∃ s', s.closeConnection conn = some s' ∧ RegInv s' ∧ s'.conns conn = none ∧
      (∀ e ts tid t, s'.endpoints e = some ts → tid ∈ ts → s'.targetHeap tid = some t →
        t.Remote ≠ conn) := by
  cases hcc : s.conns conn with
  | none =>
    refine ⟨ s, ?_, hI, hcc, ?_ ⟩
    · show s.closeConnection conn = some s
      simp only [server.closeConnection, hcc]
    · intro e ts tid t hb hm hh hr
      obtain ⟨ t1, ht1, c1, hc1, _ ⟩ := hI.covered e ts tid hb hm
      have ht' : t1 = t := Option.some.inj (ht1.symm.trans hh)
      rw [ht', hr, hcc] at hc1
      cases hc1
  | some c =>
    have hcov : ∀ rid, rid ∈ c.TunnelRefs → ∃ cid c0, s.conns cid = some c0 ∧ rid ∈ c0.TunnelRefs :=
      fun rid hr => ⟨ conn, c, hcc, hr ⟩
    have hpend : ∀ e ts tid t, s.endpoints e = some ts → tid ∈ ts → s.targetHeap tid = some t →
        t.Remote = conn → ∃ rid, rid ∈ c.TunnelRefs ∧ s.refHeap rid = some { Endpoint := e, Target := tid } := by
      intro e ts tid t hb hm hh hr
      obtain ⟨ t1, ht1, c1, hc1, rid, hrid, hrh ⟩ := hI.covered e ts tid hb hm
      have ht' : t1 = t := Option.some.inj (ht1.symm.trans hh)
      rw [ht', hr] at hc1
      have hcc1 : c1 = c := Option.some.inj (hc1.symm.trans hcc)
      rw [hcc1] at hrid
      exact ⟨ rid, hrid, hrh ⟩
    obtain ⟨ s1, hrr, hI1, hno ⟩ := removeRefs_spec conn c.TunnelRefs s hI hcov hpend
    refine ⟨ { s1 with conns := upd s1.conns conn none }, ?_, ?_, ?_, ?_ ⟩
    · show s.closeConnection conn = some _
      simp only [server.closeConnection, hcc, hrr]
    · refine ⟨ hI1.bucketsNonempty, ?_, ?_, ?_, hI1.tgtFresh ⟩
      · intro e ts tid hb hm
        obtain ⟨ t1, ht1, c1, hc1, rid, hrid, hrh ⟩ := hI1.covered e ts tid hb hm
        have hne : t1.Remote ≠ conn := hno e ts tid t1 hb hm ht1
        refine ⟨ t1, ht1, c1, ?_, rid, hrid, hrh ⟩
        show upd s1.conns conn none t1.Remote = _
        rw [upd_ne _ _ _ _ hne]
        exact hc1
      · intro cid c0 rid hc0 hr0
        have hc0' : upd s1.conns conn none cid = some c0 := hc0
        by_cases hk : cid = conn
        · rw [hk, upd_same] at hc0'
          cases hc0'
        · rw [upd_ne _ _ _ _ hk] at hc0'
          exact hI1.owned cid c0 rid hc0' hr0
      · intro cid c0 rid hc0 hr0
        have hc0' : upd s1.conns conn none cid = some c0 := hc0
        by_cases hk : cid = conn
        · rw [hk, upd_same] at hc0'
          cases hc0'
        · rw [upd_ne _ _ _ _ hk] at hc0'
          exact hI1.ridFresh cid c0 rid hc0' hr0
    · show upd s1.conns conn none conn = none
      rw [upd_same]
    · intro e ts tid t hb hm hh
      exact hno e ts tid t hb hm hh

/-- closeConnection preserves the invariant. -/
theorem inv_close (s s' : server) (conn : Nat) (hI : RegInv s)
    (h : s.closeConnection conn = some s') : RegInv s' := by
  obtain ⟨ s2, h2, hI2, _, _ ⟩ := closeConnection_spec s conn hI
  rw [h] at h2
  rw [Option.some.inj h2]
  exact hI2

/-- Every reachable registry state is well-formed. -/
theorem reachable_inv (s : server) (h : Reachable s) : RegInv s := by
  induction h with
  | init => exact inv_init
  | startSession s keyID conn ch _ ih => exact inv_startSession s keyID conn ch ih
  | endSession s conn ch _ ih => exact inv_endSession s conn ch ih
  | newPort s s' conn p _ heq ih => exact inv_newPort s s' conn p ih heq
  | allocTarget s t _ ih => exact inv_alloc s t ih
  | insertTarget s s' e tid _ heq ih => exact inv_insert s s' e tid ih heq
  | removeTarget s s' e tid _ heq ih => exact inv_remove s s' e tid ih heq
  | closeConn s s' conn _ heq ih => exact inv_close s s' conn ih heq

/-- Claim C4: from every reachable registry state, closeConnection(c)
completes, and afterwards no Endpoint-index bucket contains a target whose
owning connection is c, and the Connection index has no entry for c. -/
theorem C4_closeConnection (s : server) (conn : Nat) (hr : Reachable s) :
    ∃ s', s.closeConnection conn = some s' ∧ s'.conns conn = none ∧
      (∀ e ts tid t, s'.endpoints e = some ts → tid ∈ ts → s'.targetHeap tid = some t →
        t.Remote ≠ conn) := by
  obtain ⟨ s', h1, _, h2, h3 ⟩ := closeConnection_spec s conn (reachable_inv s hr)
  exact ⟨ s', h1, h2, h3 ⟩

/-- The concrete state c4S is reachable. -/
theorem c4S_reachable : Reachable c4S :=
  Reachable.insertTarget regB c4S "h" 0
    (Reachable.allocTarget regA { KeyID := "K", Remote := 0, Host := "localhost", Port := 7 }
      (Reachable.startSession initServer "K" 0 5 Reachable.init)) rfl

/-- Witness for C4: closing connection 0 of c4S. -/
theorem C4_witness :
    Reachable c4S ∧
    (∃ s', c4S.closeConnection 0 = some s' ∧ s'.conns 0 = none ∧
      (∀ e ts tid t, s'.endpoints e = some ts → tid ∈ ts → s'.targetHeap tid = some t →
        t.Remote ≠ 0)) :=
  ⟨ c4S_reachable, C4_closeConnection c4S 0 c4S_reachable ⟩

/-- Claim C5: in every reachable registry state a hostname key is present in
the Endpoint index exactly when its target set is non-empty: no hostname ever
maps to an empty target set (absence is `none`). -/
theorem C5_buckets_nonempty (s : server) (hr : Reachable s) : ∀ e, s.endpoints e ≠ some [] := by
  intro e h
  exact (reachable_inv s hr).bucketsNonempty e [] h rfl

/-- Witness for C5 at the reachable state c4S. -/
theorem C5_witness : c4S.endpoints "h" ≠ some [] :=
  C5_buckets_nonempty c4S c4S_reachable "h"
